import Mathlib

/-!
Verification development for the dTelecom agents-js voice-agent pipeline.

Shallow embedding of the core components (SentenceSplitter, BargeIn,
ContextManager, and the Pipeline's turn-dispatch and response-cycle logic)
from the TypeScript sources, together with theorems settling the frozen
claims about them.  JavaScript strings are modelled as `List Char`;
JavaScript's `??` defaults, string truthiness (`""` is falsy) and the
`Array.prototype.slice` negative-index conventions are modelled explicitly.
-/

set_option maxRecDepth 4000

-- ─── SentenceSplitter (src/core/sentence-splitter.ts) ────────────────────────

/-- ASCII whitespace recognised by the JavaScript regex class `\s` and by
`String.prototype.trim` (the source operates on JS strings; only the ASCII
subset is relevant to the claims). -/
def isWs (c : Char) : Bool :=
  c == ' ' || c == '\t' || c == '\n' || c == '\r' || c == '\x0b' || c == '\x0c'

/-- Sentence terminators, the character class `[.!?]` of rule 1. -/
def isTerminator (c : Char) : Bool :=
  c == '.' || c == '!' || c == '?'

/-- Clause separators, the character class `[,;:—]` of rule 2. -/
def isClauseSep (c : Char) : Bool :=
  c == ',' || c == ';' || c == ':' || c == '—'

def MIN_CHUNK : Nat := 20

def MAX_CHUNK : Nat := 150

/-- JavaScript `String.prototype.trim` on a character list. -/
def trimJs (l : List Char) : List Char :=
  ((l.dropWhile isWs).reverse.dropWhile isWs).reverse

/-- Length of the leading whitespace run (what `\s*` consumes greedily). -/
def wsRunLen (l : List Char) : Nat :=
  (l.takeWhile isWs).length

/-- Rule 1 of `extractChunks`: the first match of `[^.!?]*[.!?]\s*` starts at
offset 0 and ends just after the first terminator plus the following
whitespace run; the trimmed prefix is emitted when it reaches MIN_CHUNK. -/
def sentenceRule (b : List Char) : Option (List Char × List Char) :=
  match b.findIdx? isTerminator with
  | none => none
  | some i =>
    let e := i + 1 + wsRunLen (b.drop (i + 1))
    let chunk := trimJs (b.take e)
    if MIN_CHUNK ≤ chunk.length then some (chunk, b.drop e) else none

/-- Rule 2 of `extractChunks`: the first match of `[,;:—]\s*`, accepted
only when its start index is at least MIN_CHUNK. -/
def clauseRule (b : List Char) : Option (List Char × List Char) :=
  match b.findIdx? isClauseSep with
  | none => none
  | some j =>
    if MIN_CHUNK ≤ j then
      let e := j + 1 + wsRunLen (b.drop (j + 1))
      some (trimJs (b.take e), b.drop e)
    else none

/-- JavaScript `buffer.lastIndexOf(' ', MAX_CHUNK)`: the largest index of a
space character at or before offset MAX_CHUNK (`none` for -1). -/
def lastSpaceIdx (b : List Char) : Option Nat :=
  let pre := b.take (MAX_CHUNK + 1)
  (pre.reverse.findIdx? (fun c => c == ' ')).map (fun r => pre.length - 1 - r)

/-- Rule 3 of `extractChunks`: forced word-boundary split.  The buffer after
the split keeps the space (`buffer.slice(spaceIdx)`). -/
def spaceRule (b : List Char) : Option (List Char × List Char) :=
  match lastSpaceIdx b with
  | none => none
  | some s =>
    if MIN_CHUNK ≤ s then some (trimJs (b.take s), b.drop s) else none

/-- One iteration of the `while (true)` loop of `extractChunks`: rule 1 first;
rules 2 and 3 only when the buffer has reached MAX_CHUNK; `none` means the
loop breaks. -/
def extractStep (b : List Char) : Option (List Char × List Char) :=
  match sentenceRule b with
  | some r => some r
  | none =>
    if MAX_CHUNK ≤ b.length then
      match clauseRule b with
      | some r => some r
      | none => spaceRule b
    else none

/-- The `while (true)` loop of `extractChunks`, fueled: every productive
iteration strictly shrinks the buffer, so fuel `b.length` is always enough. -/
def extractLoop : Nat → List Char → List (List Char) × List Char
  | 0, b => ([], b)
  | fuel + 1, b =>
    match extractStep b with
    | some (c, b2) =>
      let r := extractLoop fuel b2
      (c :: r.1, r.2)
    | none => ([], b)

/-- `SentenceSplitter.extractChunks` on a buffer. -/
def extractChunks (b : List Char) : List (List Char) × List Char :=
  extractLoop b.length b

/-- `SentenceSplitter.push`: append the token to the buffer and extract any
speakable chunks; returns (chunks, new buffer). -/
def splitterPush (buffer token : List Char) : List (List Char) × List Char :=
  extractChunks (buffer ++ token)

/-- `SentenceSplitter.flush`: trim the buffer and return it unless empty. -/
def splitterFlush (buffer : List Char) : Option (List Char) :=
  let t := trimJs buffer
  if t.isEmpty then none else some t

/-- The `flush()` result treated as empty when it is `null`. -/
def flushText (buffer : List Char) : List Char :=
  (splitterFlush buffer).getD []

/-- Run a sequence of `push` calls against a splitter whose buffer starts as
`buffer`, collecting all emitted chunks and the final buffer. -/
def pushAllFrom (buffer : List Char) : List (List Char) → List (List Char) × List Char
  | [] => ([], buffer)
  | t :: ts =>
    let r := splitterPush buffer t
    let rest := pushAllFrom r.2 ts
    (r.1 ++ rest.1, rest.2)

/-- Run a sequence of `push` calls against a fresh splitter. -/
def pushAll (tokens : List (List Char)) : List (List Char) × List Char :=
  pushAllFrom [] tokens

example : splitterPush [] ("This is a test sentence. ".toList)
    = (["This is a test sentence.".toList], []) := by decide

example : splitterPush [] ("Hi. ".toList) = ([], "Hi. ".toList) := by decide

example :
    splitterPush [] ("First sentence is long enough. Second sentence also long enough. ".toList)
      = (["First sentence is long enough.".toList,
          "Second sentence also long enough.".toList], []) := by decide

-- ─── Conservation lemmas for the splitter ────────────────────────────────────

/-- The non-whitespace characters of a string, in order.  Chunk extraction
only ever trims whitespace, so this is what `push`/`flush` preserve. -/
def nonWs (l : List Char) : List Char :=
  l.filter (fun c => !isWs c)

lemma nonWs_append (a b : List Char) : nonWs (a ++ b) = nonWs a ++ nonWs b :=
  List.filter_append ..

lemma nonWs_dropWhile (l : List Char) : nonWs (l.dropWhile isWs) = nonWs l := by
  induction l with
  | nil => rfl
  | cons c cs ih =>
    simp only [List.dropWhile_cons]
    by_cases h : isWs c
    · simpa [nonWs, List.filter_cons, h] using ih
    · simp [h]

lemma nonWs_reverse (l : List Char) : nonWs l.reverse = (nonWs l).reverse := by
  simp [nonWs, List.filter_reverse]

lemma nonWs_trimJs (l : List Char) : nonWs (trimJs l) = nonWs l := by
  unfold trimJs
  rw [nonWs_reverse, nonWs_dropWhile, nonWs_reverse, List.reverse_reverse, nonWs_dropWhile]

lemma sentenceRule_shape {b c b2 : List Char} (h : sentenceRule b = some (c, b2)) :
    ∃ e, 1 ≤ e ∧ c = trimJs (b.take e) ∧ b2 = b.drop e ∧ b ≠ [] := by
  cases b with
  | nil => simp [sentenceRule] at h
  | cons x xs =>
    unfold sentenceRule at h
    cases hf : (x :: xs).findIdx? isTerminator with
    | none => rw [hf] at h; exact absurd h (by simp)
    | some i =>
      rw [hf] at h
      dsimp only at h
      split at h
      · injection h with h1
        injection h1 with hc hb2
        exact ⟨i + 1 + wsRunLen ((x :: xs).drop (i + 1)), by omega, hc.symm, hb2.symm, by simp⟩
      · exact absurd h (by simp)

lemma clauseRule_shape {b c b2 : List Char} (h : clauseRule b = some (c, b2)) :
    ∃ e, 1 ≤ e ∧ c = trimJs (b.take e) ∧ b2 = b.drop e ∧ b ≠ [] := by
  cases b with
  | nil => simp [clauseRule] at h
  | cons x xs =>
    unfold clauseRule at h
    cases hf : (x :: xs).findIdx? isClauseSep with
    | none => rw [hf] at h; exact absurd h (by simp)
    | some j =>
      rw [hf] at h
      dsimp only at h
      split at h
      · injection h with h1
        injection h1 with hc hb2
        exact ⟨j + 1 + wsRunLen ((x :: xs).drop (j + 1)), by omega, hc.symm, hb2.symm, by simp⟩
      · exact absurd h (by simp)

lemma spaceRule_shape {b c b2 : List Char} (h : spaceRule b = some (c, b2)) :
    ∃ e, 1 ≤ e ∧ c = trimJs (b.take e) ∧ b2 = b.drop e ∧ b ≠ [] := by
  cases b with
  | nil => simp [spaceRule, lastSpaceIdx] at h
  | cons x xs =>
    unfold spaceRule at h
    cases hf : lastSpaceIdx (x :: xs) with
    | none => rw [hf] at h; exact absurd h (by simp)
    | some s =>
      rw [hf] at h
      dsimp only at h
      split at h
      · injection h with h1
        injection h1 with hc hb2
        refine ⟨s, ?_, hc.symm, hb2.symm, by simp⟩
        have : MIN_CHUNK ≤ s := by assumption
        unfold MIN_CHUNK at this
        omega
      · exact absurd h (by simp)

lemma extractStep_shape {b c b2 : List Char} (h : extractStep b = some (c, b2)) :
    ∃ e, 1 ≤ e ∧ c = trimJs (b.take e) ∧ b2 = b.drop e ∧ b ≠ [] := by
  unfold extractStep at h
  cases hs : sentenceRule b with
  | some r =>
    rw [hs] at h
    dsimp only at h
    injection h with h1
    subst h1
    exact sentenceRule_shape hs
  | none =>
    rw [hs] at h
    dsimp only at h
    by_cases hm : MAX_CHUNK ≤ b.length
    · rw [if_pos hm] at h
      cases hc : clauseRule b with
      | some r =>
        rw [hc] at h
        dsimp only at h
        injection h with h1
        subst h1
        exact clauseRule_shape hc
      | none =>
        rw [hc] at h
        dsimp only at h
        exact spaceRule_shape h
    · rw [if_neg hm] at h
      exact absurd h (by simp)

lemma extractStep_shrink {b c b2 : List Char} (h : extractStep b = some (c, b2)) :
    b2.length < b.length := by
  obtain ⟨e, he, -, hb2, hne⟩ := extractStep_shape h
  subst hb2
  have hlen : b.length ≠ 0 := by
    simpa [List.length_eq_zero] using hne
  rw [List.length_drop]
  omega

lemma extractStep_conserve {b c b2 : List Char} (h : extractStep b = some (c, b2)) :
    nonWs c ++ nonWs b2 = nonWs b := by
  obtain ⟨e, -, hc, hb2, -⟩ := extractStep_shape h
  subst hc
  subst hb2
  rw [nonWs_trimJs, ← nonWs_append, List.take_append_drop]

lemma extractLoop_conserve :
    ∀ (fuel : Nat) (b : List Char),
      nonWs (extractLoop fuel b).1.flatten ++ nonWs (extractLoop fuel b).2 = nonWs b := by
  intro fuel
  induction fuel with
  | zero => intro b; simp [extractLoop, nonWs]
  | succ f ih =>
    intro b
    simp only [extractLoop]
    cases hs : extractStep b with
    | none => simp [nonWs]
    | some r =>
      obtain ⟨c, b2⟩ := r
      dsimp only
      rw [List.flatten_cons, nonWs_append, List.append_assoc, ih b2, extractStep_conserve hs]

lemma splitterPush_conserve (buffer token : List Char) :
    nonWs (splitterPush buffer token).1.flatten ++ nonWs (splitterPush buffer token).2
      = nonWs buffer ++ nonWs token := by
  unfold splitterPush extractChunks
  rw [extractLoop_conserve, nonWs_append]

lemma pushAllFrom_conserve :
    ∀ (ts : List (List Char)) (buffer : List Char),
      nonWs (pushAllFrom buffer ts).1.flatten ++ nonWs (pushAllFrom buffer ts).2
        = nonWs buffer ++ nonWs ts.flatten := by
  intro ts
  induction ts with
  | nil => intro buffer; simp [pushAllFrom, nonWs]
  | cons t ts ih =>
    intro buffer
    unfold pushAllFrom
    dsimp only
    rw [List.flatten_append, nonWs_append, List.append_assoc, ih (splitterPush buffer t).2,
      ← List.append_assoc, splitterPush_conserve, List.flatten_cons, nonWs_append,
      List.append_assoc]

lemma nonWs_flushText (b : List Char) : nonWs (flushText b) = nonWs b := by
  unfold flushText splitterFlush
  dsimp only
  split
  · rename_i h
    have ht : trimJs b = [] := by simpa [List.isEmpty_iff] using h
    rw [← nonWs_trimJs b, ht]
    rfl
  · rw [Option.getD_some, nonWs_trimJs]

lemma extractLoop_nil (fuel : Nat) : extractLoop fuel [] = ([], []) := by
  cases fuel with
  | zero => rfl
  | succ f =>
    have hnil : extractStep [] = none := by decide
    simp [extractLoop, hnil]

lemma extractLoop_fuel_eq :
    ∀ (f1 f2 : Nat) (b : List Char), b.length ≤ f1 → b.length ≤ f2 →
      extractLoop f1 b = extractLoop f2 b := by
  intro f1
  induction f1 with
  | zero =>
    intro f2 b h1 _
    have hb : b = [] := List.length_eq_zero.mp (Nat.le_zero.mp h1)
    subst hb
    rw [extractLoop_nil, extractLoop_nil]
  | succ f ih =>
    intro f2 b h1 h2
    cases b with
    | nil => rw [extractLoop_nil, extractLoop_nil]
    | cons x xs =>
      cases f2 with
      | zero => simp at h2
      | succ f2x =>
        simp only [extractLoop]
        cases hs : extractStep (x :: xs) with
        | none => rfl
        | some r =>
          obtain ⟨c, b2⟩ := r
          have hlt := extractStep_shrink hs
          simp only [List.length_cons] at hlt h1 h2
          dsimp only
          rw [ih f2x b2 (by omega) (by omega)]

-- ─── C3 / C4: SentenceSplitter claims ────────────────────────────────────────

/-- C3 counterexample: pushing a single fragment containing a complete
sentence followed by further text yields chunks plus flush whose
concatenation differs from the pushed text — the whitespace separating the
sentence from the rest is trimmed away, so a character of the input is
dropped from the output. -/
theorem sentenceSplitter_concat_counterexample :
    (pushAll ["This is a sentence number one. And more".toList]).1.flatten
        ++ flushText (pushAll ["This is a sentence number one. And more".toList]).2
      ≠ List.flatten ["This is a sentence number one. And more".toList] := by
  decide

/-- C3 (amended): for every finite sequence of text fragments pushed into a
fresh SentenceSplitter, the concatenation of all chunks returned by the push
calls followed by the final flush() result (empty when flush returns null)
equals the concatenation of the pushed fragments up to whitespace trimming at
chunk boundaries: the subsequence of non-whitespace characters is preserved
exactly, with none dropped or duplicated. -/
theorem sentenceSplitter_preserves_nonWhitespace (tokens : List (List Char)) :
    nonWs ((pushAll tokens).1.flatten ++ flushText (pushAll tokens).2)
      = nonWs tokens.flatten := by
  rw [nonWs_append, nonWs_flushText]
  simpa [pushAll, nonWs] using pushAllFrom_conserve tokens []

/-- C4 counterexample: after this push the buffer contains a sentence
terminator (the `!` at index 45) followed by whitespace, whose prefix (46
characters) is at least MIN_CHUNK long, yet the push emits no chunk and
leaves the buffer unchanged — the code only ever splits at the FIRST
terminator (the early `.` of "Hi.", whose trimmed prefix is too short). -/
theorem sentenceSplitter_qualifying_terminator_not_split :
    splitterPush [] ("Hi. This is a long sentence over twenty chars! ".toList)
        = ([], "Hi. This is a long sentence over twenty chars! ".toList)
      ∧ ("Hi. This is a long sentence over twenty chars! ".toList).get? 45 = some '!'
      ∧ ("Hi. This is a long sentence over twenty chars! ".toList).get? 46 = some ' '
      ∧ MIN_CHUNK ≤ 45 + 1 := by
  decide

/-- C4 (amended): if, after appending the pushed token, the buffer's FIRST
sentence terminator — extended through the whitespace run following it —
delimits a prefix whose TRIMMED form is at least MIN_CHUNK (20) characters
long, then the push emits that trimmed prefix as its first chunk, removes the
prefix (including the trailing whitespace) from the buffer, and continues
extraction on the remainder. -/
theorem sentenceSplitter_push_first_sentence (buffer token : List Char) (i e : Nat)
    (hi : (buffer ++ token).findIdx? isTerminator = some i)
    (he : e = i + 1 + wsRunLen ((buffer ++ token).drop (i + 1)))
    (hmin : MIN_CHUNK ≤ (trimJs ((buffer ++ token).take e)).length) :
    splitterPush buffer token
      = (trimJs ((buffer ++ token).take e) :: (extractChunks ((buffer ++ token).drop e)).1,
         (extractChunks ((buffer ++ token).drop e)).2) := by
  subst he
  set b := buffer ++ token with hb
  have hsr : sentenceRule b
      = some (trimJs (b.take (i + 1 + wsRunLen (b.drop (i + 1)))),
              b.drop (i + 1 + wsRunLen (b.drop (i + 1)))) := by
    unfold sentenceRule
    rw [hi]
    dsimp only
    rw [if_pos hmin]
  have hst : extractStep b
      = some (trimJs (b.take (i + 1 + wsRunLen (b.drop (i + 1)))),
              b.drop (i + 1 + wsRunLen (b.drop (i + 1)))) := by
    unfold extractStep
    rw [hsr]
  have hne : b ≠ [] := by
    intro h0
    rw [h0] at hi
    simp at hi
  show extractChunks b = _
  obtain ⟨x, xs, hx⟩ : ∃ y ys, b = y :: ys := by
    cases hbc : b with
    | nil => exact absurd hbc hne
    | cons y ys => exact ⟨y, ys, rfl⟩
  have hshrink := extractStep_shrink hst
  have hlen : b.length = xs.length + 1 := by rw [hx]; rfl
  have hle : (b.drop (i + 1 + wsRunLen (b.drop (i + 1)))).length ≤ xs.length := by omega
  unfold extractChunks
  rw [hx]
  simp only [List.length_cons, extractLoop]
  rw [← hx, hst]
  dsimp only
  rw [extractLoop_fuel_eq xs.length (b.drop (i + 1 + wsRunLen (b.drop (i + 1)))).length
    (b.drop (i + 1 + wsRunLen (b.drop (i + 1)))) hle (Nat.le_refl _)]

/-- Witness for the amended C4 theorem: the repo's own unit-test input
"This is a test sentence. " (first terminator at index 23, whitespace run of
length 1, trimmed prefix of 24 ≥ 20 characters) is split into exactly that
sentence with an empty remaining buffer. -/
theorem sentenceSplitter_push_first_sentence_witness :
    splitterPush [] ("This is a test sentence. ".toList)
      = (["This is a test sentence.".toList], []) := by
  have h := sentenceSplitter_push_first_sentence [] ("This is a test sentence. ".toList) 23 25
    (by decide) (by decide) (by decide)
  exact h.trans (by decide)

-- ─── BargeIn (src/core/barge-in.ts) ──────────────────────────────────────────

/-- State of a `BargeIn` controller.  `AbortController` objects are modelled
by fresh natural-number identities: `ctrl` is the id of the currently held
controller (null when absent), `abortedIds` records every signal that has
been aborted, `nextId` is the supply of fresh identities, and `cbCount`
counts invocations of the registered `onInterrupt` callback. -/
structure BargeInState where
  ctrl : Option Nat
  interrupted : Bool
  nextId : Nat
  abortedIds : List Nat
  cbCount : Nat
deriving DecidableEq

/-- A fresh `BargeIn` (no controller, not interrupted, no callback calls). -/
def BargeInState.init : BargeInState :=
  ⟨none, false, 0, [], 0⟩

/-- `BargeIn.startCycle()`: allocate a new AbortController, clear the
interrupted flag, and return the new signal (its identity). -/
def startCycle (s : BargeInState) : BargeInState × Nat :=
  ({ s with ctrl := some s.nextId, interrupted := false, nextId := s.nextId + 1 }, s.nextId)

/-- `BargeIn.trigger()`: no-op when already interrupted; otherwise set the
flag, abort and discard the active controller, and invoke the callback. -/
def trigger (s : BargeInState) : BargeInState :=
  if s.interrupted then s
  else
    let s1 := { s with interrupted := true }
    let s2 :=
      match s1.ctrl with
      | some id => { s1 with abortedIds := id :: s1.abortedIds, ctrl := none }
      | none => s1
    { s2 with cbCount := s2.cbCount + 1 }

/-- `BargeIn.reset()`: clear the interrupted flag and drop the controller. -/
def bargeInReset (s : BargeInState) : BargeInState :=
  { s with interrupted := false, ctrl := none }

/-- Whether the signal with identity `id` has been aborted in state `s`. -/
def sigAborted (s : BargeInState) (id : Nat) : Bool :=
  s.abortedIds.contains id

/-- Well-formedness: all identities ever handed out are below `nextId`.
Holds for `BargeInState.init` and is preserved by every operation. -/
def BargeInWF (s : BargeInState) : Bool :=
  s.abortedIds.all (fun id => id < s.nextId) &&
    (match s.ctrl with
     | some id => decide (id < s.nextId)
     | none => true)

/-- C9: within one cycle (after `startCycle`), calling `trigger()` twice
invokes the interrupt callback exactly once (the second call is a no-op),
and `startCycle()` called after `trigger()` returns a signal that is not
aborted and is distinct from the previous cycle's signal (which the trigger
did abort). -/
theorem bargeIn_trigger_once_and_fresh_signal (s0 : BargeInState) (hwf : BargeInWF s0 = true) :
    (trigger (trigger (startCycle s0).1) = trigger (startCycle s0).1) ∧
    (trigger (startCycle s0).1).cbCount = (startCycle s0).1.cbCount + 1 ∧
    sigAborted (trigger (startCycle s0).1) (startCycle s0).2 = true ∧
    (startCycle (trigger (startCycle s0).1)).2 ≠ (startCycle s0).2 ∧
    sigAborted (startCycle (trigger (startCycle s0).1)).1
        (startCycle (trigger (startCycle s0).1)).2 = false := by
  simp only [BargeInWF, Bool.and_eq_true, List.all_eq_true, decide_eq_true_eq] at hwf
  obtain ⟨hids, -⟩ := hwf
  refine ⟨?_, ?_, ?_, ?_, ?_⟩
  · simp [startCycle, trigger]
  · simp [startCycle, trigger]
  · simp [startCycle, trigger, sigAborted]
  · simp only [startCycle, trigger]
    simp
  · simp only [startCycle, trigger, sigAborted]
    simp only [if_neg (by simp : ¬(false = true))]
    simp only [List.contains_eq_any_beq, List.any_cons, List.any_eq_true]
    have h1 : s0.nextId + 1 ≠ s0.nextId := by omega
    have h2 : s0.nextId + 1 ∉ s0.abortedIds := by
      intro hmem
      have := hids _ hmem
      omega
    simp [h1, h2]
    intro x hx
    have := hids x hx
    omega

/-- Witness for C9 at the initial BargeIn state. -/
theorem bargeIn_trigger_once_and_fresh_signal_witness :
    BargeInWF BargeInState.init = true ∧
    (trigger (trigger (startCycle BargeInState.init).1)
        = trigger (startCycle BargeInState.init).1) ∧
    (startCycle (trigger (startCycle BargeInState.init).1)).2
        ≠ (startCycle BargeInState.init).2 := by
  have h := bargeIn_trigger_once_and_fresh_signal BargeInState.init (by decide)
  exact ⟨by decide, h.1, h.2.2.2.1⟩

-- ─── ContextManager (src/core/context-manager.ts) ────────────────────────────

inductive Role
  | system
  | user
  | assistant
deriving DecidableEq

structure Message where
  role : Role
  content : List Char
deriving DecidableEq

structure Turn where
  speaker : List Char
  text : List Char
  isAgent : Bool
  timestamp : Nat
deriving DecidableEq

structure ContextManager where
  instructions : List Char
  maxContextTokens : Nat
  recentTurnsToKeep : Nat
  turns : List Turn
  summary : Option (List Char)
deriving DecidableEq

/-- The ContextManager constructor: `??`-defaults of 5000 max context tokens
and 4 recent turns kept verbatim; empty history and no summary. -/
def ContextManager.create (instructions : List Char)
    (maxContextTokens recentTurnsToKeep : Option Nat) : ContextManager :=
  ⟨instructions, maxContextTokens.getD 5000, recentTurnsToKeep.getD 4, [], none⟩

/-- Rough token estimate, `Math.ceil(text.length / 4)`. -/
def estimateTokens (text : List Char) : Nat :=
  (text.length + 3) / 4

def addUserTurn (cm : ContextManager) (speaker text : List Char) (now : Nat) : ContextManager :=
  { cm with turns := cm.turns ++ [⟨speaker, text, false, now⟩] }

def addAgentTurn (cm : ContextManager) (text : List Char) (now : Nat) : ContextManager :=
  { cm with turns := cm.turns ++ [⟨"assistant".toList, text, true, now⟩] }

/-- JavaScript string truthiness on a possibly-null string: null and the
empty string are falsy. -/
def optTruthy : Option (List Char) → Bool
  | some s => !s.isEmpty
  | none => false

/-- `arr.slice(-k)`: the last `k` elements — except that `slice(-0)` is
`slice(0)`, the whole array. -/
def jsSliceLast (l : List Turn) (k : Nat) : List Turn :=
  if k = 0 then l else l.drop (l.length - k)

/-- `arr.slice(0, -k)`: everything but the last `k` elements — except that
`slice(0, -0)` is `slice(0, 0)`, the empty array. -/
def jsSliceInit (l : List Turn) (k : Nat) : List Turn :=
  if k = 0 then [] else l.take (l.length - k)

/-- Format one turn as a chat message: agent turns verbatim with role
assistant, user turns as `[speaker]: text` with role user. -/
def renderTurn (t : Turn) : Message :=
  if t.isAgent then ⟨Role.assistant, t.text⟩
  else ⟨Role.user, "[".toList ++ t.speaker ++ "]: ".toList ++ t.text⟩

/-- `ContextManager.buildMessages(memoryContext?)`. -/
def buildMessages (cm : ContextManager) (memoryContext : Option (List Char)) : List Message :=
  [⟨Role.system, cm.instructions⟩]
    ++ (match memoryContext with
        | some mc =>
          if mc.isEmpty then []
          else [⟨Role.system, "Relevant context from past conversations:\n".toList ++ mc⟩]
        | none => [])
    ++ (match cm.summary with
        | some s =>
          if s.isEmpty then []
          else [⟨Role.system, "Conversation summary so far:\n".toList ++ s⟩]
        | none => [])
    ++ (if optTruthy cm.summary then jsSliceLast cm.turns cm.recentTurnsToKeep
        else cm.turns).map renderTurn

/-- `ContextManager.shouldSummarize()`: reduce over the turns starting from
the instructions estimate, 10 extra tokens per turn, compare with the max. -/
def shouldSummarize (cm : ContextManager) : Bool :=
  decide (cm.turns.foldl (fun acc t => acc + estimateTokens t.text + 10)
      (estimateTokens cm.instructions) > cm.maxContextTokens)

/-- Streamed LLM chunks (the tagged union of src/core/types.ts). -/
inductive LLMChunk
  | token (tok : List Char)
  | segment (lang text : List Char)
  | toolCall (name args : List Char)
  | done
deriving DecidableEq

structure LLMError where
  message : List Char
deriving DecidableEq

/-- The text accumulated from a chunk stream: only `token` chunks with
truthy (non-empty) payload contribute, in order. -/
def chunkTokensText : List LLMChunk → List Char
  | [] => []
  | LLMChunk.token t :: cs => t ++ chunkTokensText cs
  | _ :: cs => chunkTokensText cs

def formatTurn (t : Turn) : List Char :=
  "[".toList ++ t.speaker ++ "]: ".toList ++ t.text

/-- `Array.prototype.join('\n')`. -/
def joinLines : List (List Char) → List Char
  | [] => []
  | [x] => x
  | x :: y :: xs => x ++ '\n' :: joinLines (y :: xs)

/-- The fixed summarization prompt sent to the LLM collaborator: a system
instruction plus the transcript of the older (summarized-away) turns. -/
def summaryPromptFor (cm : ContextManager) : List Message :=
  [⟨Role.system,
    ("Summarize this conversation concisely, preserving key facts, decisions, and action items.".toList)⟩,
   ⟨Role.user, joinLines ((jsSliceInit cm.turns cm.recentTurnsToKeep).map formatTurn)⟩]

/-- The summary update: appended to any existing (truthy) summary with a
blank line between, otherwise taken as the whole summary. -/
def joinSummary (old : Option (List Char)) (txt : List Char) : List Char :=
  if optTruthy old then old.getD [] ++ "\n\n".toList ++ txt else txt

/-- `ContextManager.summarize(llm)`.  The LLM collaborator is a function from
the prompt to the streamed chunks; `some e` in the second component means the
stream raised `e` at some point during iteration, in which case the
accumulated text is discarded and the error propagates — the mutations of
`summary` and `turns` only happen after the stream is fully consumed. -/
def summarize (cm : ContextManager)
    (llm : List Message → List LLMChunk × Option LLMError) : Except LLMError ContextManager :=
  if cm.turns.length ≤ cm.recentTurnsToKeep then Except.ok cm
  else
    match llm (summaryPromptFor cm) with
    | (_, some e) => Except.error e
    | (chunks, none) =>
      Except.ok { cm with
        summary := some (joinSummary cm.summary (chunkTokensText chunks)),
        turns := jsSliceLast cm.turns cm.recentTurnsToKeep }

-- ─── C8: shouldSummarize ─────────────────────────────────────────────────────

/-- C8: `shouldSummarize()` returns true iff ceil(|instructions|/4) plus the
sum over the stored turns of (ceil(|turn.text|/4) + 10) strictly exceeds
`maxContextTokens` (5000 by default in `ContextManager.create`). -/
theorem contextManager_shouldSummarize_spec (cm : ContextManager) :
    shouldSummarize cm = true ↔
      cm.instructions.length ⌈/⌉ 4
          + (cm.turns.map (fun t => t.text.length ⌈/⌉ 4 + 10)).sum
        > cm.maxContextTokens := by
  unfold shouldSummarize
  rw [decide_eq_true_iff]
  have hceil : ∀ n : Nat, n ⌈/⌉ 4 = (n + 3) / 4 := by
    intro n
    rw [Nat.ceilDiv_eq_add_pred_div]
    omega
  have hfold : ∀ (ts : List Turn) (a : Nat),
      ts.foldl (fun acc t => acc + estimateTokens t.text + 10) a
        = a + (ts.map (fun t => estimateTokens t.text + 10)).sum := by
    intro ts
    induction ts with
    | nil => intro a; simp
    | cons t ts ih =>
      intro a
      rw [List.foldl_cons, ih, List.map_cons, List.sum_cons]
      omega
  rw [hfold]
  simp only [estimateTokens, hceil]

-- ─── C5 / C10: summarize ─────────────────────────────────────────────────────

/-- A ContextManager configured with `recentTurnsToKeep = 0` and one turn. -/
def cmKeepZero : ContextManager :=
  ⟨"inst".toList, 5000, 0, [⟨"alice".toList, "hello there".toList, false, 0⟩], none⟩

/-- An LLM collaborator whose stream yields one summary token and ends. -/
def llmSummary : List Message → List LLMChunk × Option LLMError :=
  fun _ => ([LLMChunk.token ("User greeted.".toList)], none)

/-- C5 counterexample: with `recentTurnsToKeep = 0` and one stored turn
(strictly more than 0), `summarize` succeeds but does NOT truncate the turns
to the most recent 0 turns: `turns.slice(-0)` is the whole array, so the one
turn survives (and `buildMessages` then renders it after the summary),
contradicting the claim that exactly `recentTurnsToKeep` turns remain. -/
theorem contextManager_summarize_keepZero_counterexample :
    0 < cmKeepZero.turns.length ∧
    cmKeepZero.recentTurnsToKeep = 0 ∧
    summarize cmKeepZero llmSummary
        = Except.ok { cmKeepZero with summary := some ("User greeted.".toList) } ∧
    ({ cmKeepZero with summary := some ("User greeted.".toList) } : ContextManager).turns.length
        = 1 := by
  refine ⟨by decide, rfl, rfl, rfl⟩

/-- C5 (amended): when `recentTurnsToKeep ≥ 1`, a successful `summarize` on a
ContextManager holding strictly more than `recentTurnsToKeep` turns keeps
exactly the most recent `recentTurnsToKeep` turns verbatim, sets the summary
to the streamed text appended (blank-line-joined) to any existing truthy
summary, and a subsequent `buildMessages()` consists of system messages the
last of which contains the streamed summary text, followed by exactly those
`recentTurnsToKeep` verbatim turns; when the turn count is at most
`recentTurnsToKeep`, `summarize` is a no-op.  (The claim fails only at the
JavaScript `slice(-0)` corner `recentTurnsToKeep = 0`.) -/
theorem contextManager_summarize_correct
    (cm : ContextManager) (llm : List Message → List LLMChunk × Option LLMError)
    (chunks : List LLMChunk)
    (hllm : llm (summaryPromptFor cm) = (chunks, none)) :
    (cm.turns.length ≤ cm.recentTurnsToKeep → summarize cm llm = Except.ok cm) ∧
    (1 ≤ cm.recentTurnsToKeep → cm.recentTurnsToKeep < cm.turns.length →
      summarize cm llm
          = Except.ok { cm with
              summary := some (joinSummary cm.summary (chunkTokensText chunks)),
              turns := cm.turns.drop (cm.turns.length - cm.recentTurnsToKeep) } ∧
      (cm.turns.drop (cm.turns.length - cm.recentTurnsToKeep)).length
          = cm.recentTurnsToKeep ∧
      (∃ pre c,
        buildMessages { cm with
              summary := some (joinSummary cm.summary (chunkTokensText chunks)),
              turns := cm.turns.drop (cm.turns.length - cm.recentTurnsToKeep) } none
            = pre ++ Message.mk Role.system c
                :: (cm.turns.drop (cm.turns.length - cm.recentTurnsToKeep)).map renderTurn
          ∧ ∃ q, c = q ++ chunkTokensText chunks)) := by
  constructor
  · intro hle
    unfold summarize
    rw [if_pos hle]
  · intro h1 hlt
    have hslice : jsSliceLast cm.turns cm.recentTurnsToKeep
        = cm.turns.drop (cm.turns.length - cm.recentTurnsToKeep) := by
      unfold jsSliceLast
      rw [if_neg (by omega)]
    have hlen : (cm.turns.drop (cm.turns.length - cm.recentTurnsToKeep)).length
        = cm.recentTurnsToKeep := by
      rw [List.length_drop]
      omega
    refine ⟨?_, hlen, ?_⟩
    · unfold summarize
      rw [if_neg (by omega), hllm]
      dsimp only
      rw [hslice]
    · set s := joinSummary cm.summary (chunkTokensText chunks) with hs
      set cm2 : ContextManager :=
        { cm with
          summary := some s,
          turns := cm.turns.drop (cm.turns.length - cm.recentTurnsToKeep) } with hcm2
      have hbm : buildMessages cm2 none
          = [Message.mk Role.system cm.instructions]
            ++ (if s.isEmpty then []
                else [Message.mk Role.system ("Conversation summary so far:\n".toList ++ s)])
            ++ (if optTruthy (some s) then jsSliceLast cm2.turns cm.recentTurnsToKeep
                else cm2.turns).map renderTurn := by
        rfl
      have hturns2 : (if optTruthy (some s) then jsSliceLast cm2.turns cm.recentTurnsToKeep
          else cm2.turns) = cm2.turns := by
        by_cases ht : optTruthy (some s)
        · rw [if_pos ht]
          unfold jsSliceLast
          rw [if_neg (by omega)]
          have : cm2.turns.length = cm.recentTurnsToKeep := hlen
          rw [this, Nat.sub_self, List.drop_zero]
        · rw [if_neg ht]
      rw [hturns2] at hbm
      by_cases hse : s.isEmpty
      · -- the summary string is empty (falsy):  the summary message is
        -- omitted, but the instructions message (trivially) contains the
        -- empty streamed text and is followed by the kept turns.
        have hsnil : s = [] := by
          rwa [List.isEmpty_iff] at hse
        have htxt : chunkTokensText chunks = [] := by
          by_cases ho : optTruthy cm.summary
          · exfalso
            rw [hs] at hsnil
            unfold joinSummary at hsnil
            rw [if_pos ho] at hsnil
            simp at hsnil
          · rw [hs] at hsnil
            unfold joinSummary at hsnil
            rwa [if_neg ho] at hsnil
        refine ⟨[], cm.instructions, ?_, cm.instructions, ?_⟩
        · rw [hbm, if_pos hse]
          rfl
        · rw [htxt, List.append_nil]
      · have hq : ∃ q0, s = q0 ++ chunkTokensText chunks := by
          rw [hs]
          unfold joinSummary
          by_cases ho : optTruthy cm.summary
          · rw [if_pos ho]
            exact ⟨cm.summary.getD [] ++ "\n\n".toList, by rw [List.append_assoc]⟩
          · rw [if_neg ho]
            exact ⟨[], rfl⟩
        obtain ⟨q0, hq0⟩ := hq
        refine ⟨[Message.mk Role.system cm.instructions],
          "Conversation summary so far:\n".toList ++ s, ?_,
          "Conversation summary so far:\n".toList ++ q0, ?_⟩
        · rw [hbm, if_neg hse]
          rfl
        · rw [hq0, List.append_assoc]

/-- A ContextManager with two turns and `recentTurnsToKeep = 1`. -/
def cmTwoTurns : ContextManager :=
  ⟨"inst".toList, 5000, 1,
   [⟨"a".toList, "one".toList, false, 0⟩, ⟨"b".toList, "two".toList, false, 1⟩], none⟩

/-- An LLM collaborator streaming the single token "S". -/
def llmS : List Message → List LLMChunk × Option LLMError :=
  fun _ => ([LLMChunk.token ("S".toList)], none)

/-- Witness for the amended C5 theorem at a concrete two-turn manager. -/
theorem contextManager_summarize_correct_witness :
    summarize cmTwoTurns llmS
        = Except.ok { cmTwoTurns with
            summary := some (joinSummary cmTwoTurns.summary
              (chunkTokensText [LLMChunk.token ("S".toList)])),
            turns := cmTwoTurns.turns.drop
              (cmTwoTurns.turns.length - cmTwoTurns.recentTurnsToKeep) } ∧
    (cmTwoTurns.turns.drop (cmTwoTurns.turns.length - cmTwoTurns.recentTurnsToKeep)).length
        = cmTwoTurns.recentTurnsToKeep ∧
    (∃ pre c,
      buildMessages { cmTwoTurns with
            summary := some (joinSummary cmTwoTurns.summary
              (chunkTokensText [LLMChunk.token ("S".toList)])),
            turns := cmTwoTurns.turns.drop
              (cmTwoTurns.turns.length - cmTwoTurns.recentTurnsToKeep) } none
          = pre ++ Message.mk Role.system c
              :: (cmTwoTurns.turns.drop
                    (cmTwoTurns.turns.length - cmTwoTurns.recentTurnsToKeep)).map renderTurn
        ∧ ∃ q, c = q ++ chunkTokensText [LLMChunk.token ("S".toList)]) :=
  (contextManager_summarize_correct cmTwoTurns llmS [LLMChunk.token ("S".toList)] rfl).2
    (by decide) (by decide)

-- ─── C10: error during summarize ─────────────────────────────────────────────

/-- C10: if the LLM collaborator's stream raises an exception at any point
during `summarize` (on a manager that actually summarizes, i.e. more turns
than `recentTurnsToKeep`), the exception propagates to the caller and no
updated manager is produced: the partially accumulated summary text is
discarded and `turns`/`summary` keep their prior values (the mutations occur
only after the stream is fully consumed). -/
theorem contextManager_summarize_error_propagates
    (cm : ContextManager) (llm : List Message → List LLMChunk × Option LLMError)
    (chunks : List LLMChunk) (e : LLMError)
    (hllm : llm (summaryPromptFor cm) = (chunks, some e))
    (hmore : cm.recentTurnsToKeep < cm.turns.length) :
    summarize cm llm = Except.error e := by
  unfold summarize
  rw [if_neg (by omega), hllm]

/-- An LLM collaborator whose stream yields one token then raises. -/
def llmBoom : List Message → List LLMChunk × Option LLMError :=
  fun _ => ([LLMChunk.token ("par".toList)], some ⟨"boom".toList⟩)

/-- Witness for C10 at a concrete manager and failing stream. -/
theorem contextManager_summarize_error_propagates_witness :
    summarize cmTwoTurns llmBoom = Except.error ⟨"boom".toList⟩ :=
  contextManager_summarize_error_propagates cmTwoTurns llmBoom
    [LLMChunk.token ("par".toList)] ⟨"boom".toList⟩ rfl (by decide)

-- ─── Pipeline.shouldRespond (src/core/types.ts, lines 401-417) ───────────────

/-- JavaScript `hay.includes(needle)`: substring containment. -/
def strIncludes (hay needle : List Char) : Bool :=
  hay.tails.any (fun t => needle.isPrefixOf t)

lemma strIncludes_iff (hay needle : List Char) :
    strIncludes hay needle = true ↔ ∃ p q, hay = p ++ needle ++ q := by
  unfold strIncludes
  rw [List.any_eq_true]
  constructor
  · rintro ⟨t, ht, hp⟩
    rw [List.mem_tails] at ht
    rw [List.isPrefixOf_iff_prefix] at hp
    obtain ⟨p, q, hpq⟩ := List.infix_iff_prefix_suffix.mpr ⟨t, hp, ht⟩
    exact ⟨p, q, hpq.symm⟩
  · rintro ⟨p, q, hpq⟩
    obtain ⟨t, hp, ht⟩ := List.infix_iff_prefix_suffix.mp ⟨p, q, hpq.symm⟩
    exact ⟨t, (List.mem_tails _ _).mpr ht, List.isPrefixOf_iff_prefix.mpr hp⟩

inductive RespondMode
  | always
  | addressed
deriving DecidableEq

/-- The respond-policy slice of the Pipeline configuration.  `beforeRespond`
is the optional gating hook `(speaker, text) => Bool`. -/
structure RespondConfig where
  respondMode : RespondMode
  agentName : List Char
  nameVariants : List (List Char)
  beforeRespond : Option (List Char → List Char → Bool)

/-- The Pipeline constructor's handling of these options: agent name defaults
to "assistant" via `??` and is lowercased, every name variant is lowercased. -/
def RespondConfig.create (mode : RespondMode) (agentName : Option (List Char))
    (nameVariants : List (List Char))
    (beforeRespond : Option (List Char → List Char → Bool)) : RespondConfig :=
  ⟨mode, (agentName.getD ("assistant".toList)).map Char.toLower,
   nameVariants.map (fun v => v.map Char.toLower), beforeRespond⟩

/-- `Pipeline.shouldRespond(speaker, text)`: 'always' mode responds to
everything; 'addressed' mode requires a case-insensitive substring match of
the agent name or a variant, then defers to the hook if one is present. -/
def shouldRespond (cfg : RespondConfig) (speaker text : List Char) : Bool :=
  match cfg.respondMode with
  | RespondMode.always => true
  | RespondMode.addressed =>
    let lower := text.map Char.toLower
    let nameMatch := strIncludes lower cfg.agentName
      || cfg.nameVariants.any (fun v => strIncludes lower v)
    if !nameMatch then false
    else
      match cfg.beforeRespond with
      | some hook => hook speaker text
      | none => true

lemma variantsMatch_iff (L : List Char) (vs : List (List Char)) :
    (vs.map (fun v => v.map Char.toLower)).any (fun v => strIncludes L v) = true
      ↔ ∃ v ∈ vs, ∃ p q, L = p ++ v.map Char.toLower ++ q := by
  rw [List.any_eq_true]
  constructor
  · rintro ⟨x, hx, hs⟩
    rw [List.mem_map] at hx
    obtain ⟨v, hv, rfl⟩ := hx
    exact ⟨v, hv, (strIncludes_iff ..).mp hs⟩
  · rintro ⟨v, hv, hpq⟩
    exact ⟨v.map Char.toLower, List.mem_map.mpr ⟨v, hv, rfl⟩, (strIncludes_iff ..).mpr hpq⟩

/-- C7: in 'addressed' mode `shouldRespond` returns true iff the lowercased
transcript contains the lowercased configured agent name (default
"assistant") or one of the lowercased configured variants as a substring,
and, when a beforeRespond hook is configured, the hook returns true; in
'always' mode it returns true for every transcript. -/
theorem pipeline_shouldRespond_spec (agentName : Option (List Char))
    (nameVariants : List (List Char)) (beforeRespond : Option (List Char → List Char → Bool))
    (speaker text : List Char) :
    shouldRespond (RespondConfig.create RespondMode.always agentName nameVariants beforeRespond)
        speaker text = true ∧
    (shouldRespond
          (RespondConfig.create RespondMode.addressed agentName nameVariants beforeRespond)
          speaker text = true ↔
      ((∃ p q, text.map Char.toLower
            = p ++ (agentName.getD ("assistant".toList)).map Char.toLower ++ q) ∨
        (∃ v ∈ nameVariants, ∃ p q, text.map Char.toLower = p ++ v.map Char.toLower ++ q)) ∧
      (∀ hook, beforeRespond = some hook → hook speaker text = true)) := by
  constructor
  · rfl
  · unfold shouldRespond RespondConfig.create
    dsimp only
    have hmatch : (match beforeRespond with
        | some hook => hook speaker text
        | none => true) = true
          ↔ (∀ hook, beforeRespond = some hook → hook speaker text = true) := by
      cases beforeRespond with
      | none => simp
      | some hook => simp
    have hname : (strIncludes (text.map Char.toLower)
          ((agentName.getD ("assistant".toList)).map Char.toLower)
        || (nameVariants.map (fun v => v.map Char.toLower)).any
            (fun v => strIncludes (text.map Char.toLower) v)) = true
          ↔ ((∃ p q, text.map Char.toLower
                = p ++ (agentName.getD ("assistant".toList)).map Char.toLower ++ q) ∨
            (∃ v ∈ nameVariants, ∃ p q, text.map Char.toLower = p ++ v.map Char.toLower ++ q)) := by
      rw [Bool.or_eq_true, strIncludes_iff, variantsMatch_iff]
    by_cases hab : (strIncludes (text.map Char.toLower)
          ((agentName.getD ("assistant".toList)).map Char.toLower)
        || (nameVariants.map (fun v => v.map Char.toLower)).any
            (fun v => strIncludes (text.map Char.toLower) v)) = true
    · rw [if_neg (by rw [hab]; simp)]
      rw [hmatch]
      constructor
      · intro h
        exact ⟨hname.mp hab, h⟩
      · intro h
        exact h.2
    · rw [if_pos (by
        have hf : (strIncludes (text.map Char.toLower)
              ((agentName.getD ("assistant".toList)).map Char.toLower)
            || (nameVariants.map (fun v => v.map Char.toLower)).any
                (fun v => strIncludes (text.map Char.toLower) v)) = false := by
          simpa using hab
        rw [hf]
        simp)]
      constructor
      · intro h
        exact absurd h (by simp)
      · intro h
        exact absurd (hname.mpr h.1) hab

-- ─── Pipeline pending-turn dispatch (src/core/types.ts, lines 419-425/647-657)

structure PipelineTurn where
  speaker : List Char
  text : List Char
deriving DecidableEq

/-- The dispatch-relevant Pipeline state: the `_processing` flag, the turn of
the cycle being processed (bookkeeping), the single `pendingTurn` slot, and
the barge-in interrupted flag. -/
structure DispatchState where
  processing : Bool
  current : Option PipelineTurn
  pending : Option PipelineTurn
  interrupted : Bool
deriving DecidableEq

/-- Entry of `Pipeline.processTurn` for an accepted final transcript: when a
cycle is already processing, overwrite the pending slot with the new turn,
trigger barge-in on the active cycle and return; otherwise mark processing
and start the cycle for this turn. -/
def acceptFinal (s : DispatchState) (t : PipelineTurn) : DispatchState :=
  if s.processing then { s with pending := some t, interrupted := true }
  else { s with processing := true, current := some t }

/-- The `finally` block at the end of a cycle: clear `_processing`, reset the
barge-in controller, and if a pending turn was queued during the cycle start
it now (the recursive `processTurn` call takes the non-busy path because
`_processing` was just cleared). -/
def finishCycle (s : DispatchState) : DispatchState :=
  let s1 : DispatchState := { s with processing := false, interrupted := false, current := none }
  match s1.pending with
  | some t => { s1 with pending := none, processing := true, current := some t }
  | none => s1

/-- C6: the pending slot holds at most one turn; an accepted final transcript
arriving while a cycle is processing overwrites the pending slot (so after
two such arrivals only the most recent survives), triggers barge-in, and does
not disturb the current cycle; the surviving pending turn is started exactly
when the current cycle finishes, leaving the slot empty. -/
theorem pipeline_pending_turn_policy (s : DispatchState) (t t2 : PipelineTurn)
    (h : s.processing = true) :
    s.pending.toList.length ≤ 1 ∧
    (acceptFinal s t).pending = some t ∧
    (acceptFinal s t).interrupted = true ∧
    (acceptFinal s t).processing = true ∧
    (acceptFinal s t).current = s.current ∧
    (acceptFinal (acceptFinal s t) t2).pending = some t2 ∧
    (finishCycle (acceptFinal s t)).current = some t ∧
    (finishCycle (acceptFinal s t)).processing = true ∧
    (finishCycle (acceptFinal s t)).pending = none := by
  cases hp : s.pending <;>
    simp [acceptFinal, finishCycle, h, hp]

/-- Witness for C6: a pipeline mid-cycle on "first question" receives "second
question" and then "third question"; only the third survives as pending, and
finishing the cycle starts it. -/
theorem pipeline_pending_turn_policy_witness :
    (acceptFinal ⟨true, some ⟨"u".toList, "first question".toList⟩, none, false⟩
        ⟨"u".toList, "second question".toList⟩).pending
      = some ⟨"u".toList, "second question".toList⟩ ∧
    (acceptFinal (acceptFinal ⟨true, some ⟨"u".toList, "first question".toList⟩, none, false⟩
          ⟨"u".toList, "second question".toList⟩)
        ⟨"u".toList, "third question".toList⟩).pending
      = some ⟨"u".toList, "third question".toList⟩ ∧
    (finishCycle (acceptFinal ⟨true, some ⟨"u".toList, "first question".toList⟩, none, false⟩
        ⟨"u".toList, "second question".toList⟩)).current
      = some ⟨"u".toList, "second question".toList⟩ := by
  have h := pipeline_pending_turn_policy
    ⟨true, some ⟨"u".toList, "first question".toList⟩, none, false⟩
    ⟨"u".toList, "second question".toList⟩ ⟨"u".toList, "third question".toList⟩ rfl
  exact ⟨h.2.1, h.2.2.2.2.2.1, h.2.2.2.2.2.2.1⟩

-- ─── Pipeline response cycle (src/core/types.ts, processTurn lines 439-657) ──

/-- A chunk as seen by the producer loop: a `token` chunk (with its text) or
any other chunk kind, which the token-mode producer ignores. -/
inductive PChunk
  | token (tok : List Char)
  | other
deriving DecidableEq

/-- How the producer's `await Promise.all([producer(), consumer()])` ends:
`ok full sents aborted` — both tasks finished and control reaches the code
after the await, with `full` the accumulated `fullResponse`, `sents` the
queued sentences and `aborted` the final state of the cycle's abort signal;
`thrownAbort` — an AbortError propagated (the LLM stream rejected when the
signal fired mid-await); `thrownFailure` — a non-abort error propagated. -/
inductive ProdRes
  | ok (full : List Char) (sents : List (List Char)) (aborted : Bool)
  | thrownAbort
  | thrownFailure
deriving DecidableEq

/-- Signal already aborted when `i` chunks have been pulled (the abort fired
during pull number `abortAt`). -/
def abortedBefore (abortAt : Option Nat) (i : Nat) : Bool :=
  match abortAt with
  | some k => decide (k < i)
  | none => false

/-- The abort fires during pull number `i`. -/
def abortsNow (abortAt : Option Nat) (i : Nat) : Bool :=
  match abortAt with
  | some k => decide (k = i)
  | none => false

/-- The producer loop of `Pipeline.processTurn` in token mode (lines
507-566): at each iteration it first checks `signal.aborted` and exits
without flushing if set; otherwise it pulls the next chunk.  A token chunk
with truthy text is appended to `fullResponse` and fed through the
SentenceSplitter, whose chunks are queued (`pushSentence`, signal not
aborted here); other chunk kinds are skipped.  If the abort fires during the
pull, the LLM stream either rejects with an AbortError
(`llmThrowsOnAbort = true`: the producer throws) or simply ends
(`llmThrowsOnAbort = false`, the behaviour of the bundled OpenRouterLLM's
`if (signal?.aborted) break` and of the test MockLLM: the loop exits with
the signal aborted and the flush is skipped).  When the stream is exhausted
it either raises a failure (`streamFails`) or ends normally, in which case
the remaining splitter buffer is flushed as a last sentence. -/
def producerRun (abortAt : Option Nat) (llmThrowsOnAbort streamFails : Bool) :
    Nat → List Char → List Char → List (List Char) → List PChunk → ProdRes
  | i, full, buf, sents, cs =>
    if abortedBefore abortAt i then ProdRes.ok full sents true
    else if abortsNow abortAt i then
      if llmThrowsOnAbort then ProdRes.thrownAbort else ProdRes.ok full sents true
    else
      match cs with
      | [] =>
        if streamFails then ProdRes.thrownFailure
        else
          ProdRes.ok full
            (match splitterFlush buf with
             | some rem => sents ++ [rem]
             | none => sents) false
      | PChunk.token tok :: rest =>
        if tok.isEmpty then
          producerRun abortAt llmThrowsOnAbort streamFails (i + 1) full buf sents rest
        else
          producerRun abortAt llmThrowsOnAbort streamFails (i + 1) (full ++ tok)
            (splitterPush buf tok).2 (sents ++ (splitterPush buf tok).1) rest
      | PChunk.other :: rest =>
        producerRun abortAt llmThrowsOnAbort streamFails (i + 1) full buf sents rest

/-- The externally observable outcome of one `processTurn` cycle. -/
structure CycleResult where
  agentTurnRecorded : Option (List Char)
  memoryStored : Option (List Char)
  responseEmitted : Option (List Char)
  errorEmitted : Bool
  stateIdleAfter : Bool
deriving DecidableEq

/-- One `processTurn` response cycle after the agent state was set to
'thinking' (line 461), with no pending turn queued.  The three outcomes of
`await Promise.all` (lines 610-657):

* AbortError thrown — the catch recognises it and stays silent; the barge-in
  interrupt callback had already flushed audio and set the state to idle.
* any other error thrown — the catch emits the 'error' event, but neither the
  catch nor the finally block calls `setAgentState('idle')`, so the agent
  state keeps its pre-error value ('thinking', or 'speaking' once audio had
  started): `stateIdleAfter = false`.
* normal completion — the recording block `if (fullResponse.trim())` runs
  WITHOUT consulting `signal.aborted`: a non-empty (possibly partial)
  response is recorded to the ContextManager, stored to memory when a memory
  collaborator is configured, and emitted as the 'response' event; then the
  state is set to idle. -/
def runCycle (memoryEnabled : Bool) (abortAt : Option Nat)
    (llmThrowsOnAbort streamFails : Bool) (chunks : List PChunk) : CycleResult :=
  match producerRun abortAt llmThrowsOnAbort streamFails 0 [] [] [] chunks with
  | ProdRes.thrownAbort => ⟨none, none, none, false, true⟩
  | ProdRes.thrownFailure => ⟨none, none, none, true, false⟩
  | ProdRes.ok full _ _ =>
    if (trimJs full).isEmpty then ⟨none, none, none, false, true⟩
    else
      ⟨some (trimJs full), if memoryEnabled then some (trimJs full) else none,
       some (trimJs full), false, true⟩

def partialTok : List Char := "I was interrupted mid-answer".toList

/-- C1 (code bug evidence): a cycle whose barge-in signal aborts during the
second LLM pull — before producer and consumer finish normally — with an LLM
whose stream ends gracefully on abort (the bundled OpenRouterLLM and the test
MockLLM both do this).  The producer exits with the partial `fullResponse`
and the aborted flag set, `Promise.all` resolves, and the recording block
then records the partial agent turn to the ContextManager and to memory and
emits the 'response' event — contradicting the claim that a cancelled cycle
records and emits nothing. -/
theorem pipeline_abortedCycle_records_partial_response :
    producerRun (some 1) false false 0 [] [] []
        [PChunk.token partialTok, PChunk.token (" and more.".toList)]
      = ProdRes.ok partialTok [] true ∧
    runCycle true (some 1) false false
        [PChunk.token partialTok, PChunk.token (" and more.".toList)]
      = ⟨some partialTok, some partialTok, some partialTok, false, true⟩ := by
  constructor
  · rfl
  · rfl

/-- C2 (code bug evidence): a cycle in which the LLM stream raises a
non-abort error at the first pull (no barge-in, no audio yet).  The catch
emits the 'error' event, but no code path sets the agent state back to idle:
the pipeline is left in 'thinking' (`stateIdleAfter = false`).  The same
catch/finally shape, without any `setAgentState('idle')`, is used by
`Pipeline.say`. -/
theorem pipeline_error_leaves_state_not_idle :
    runCycle false none false true [] = ⟨none, none, none, true, false⟩ := by
  rfl
